import Mathlib

/-!
Verification of the libmme1536 accelerator driver (libmme1536_v1.c).

The development shallowly embeds the driver's data model and operations:
machine `int`s become `Nat` with explicit `% 2^32` where a 32-bit store
occurs, the two memory-mapped regions become explicit fields of an
`MME1536` record, and every hardware-visible action (control-register
write, data-region word write, FIFO push, interrupt wait) is recorded in
an event trace so that ordering and frame properties can be stated.
-/

namespace MME

/-! ### Register/address map constants (libmme1536_v1.h) -/

def BITS_LOW : Nat := 512
def BITS_HIGH : Nat := 1024
def BITS_TOT : Nat := BITS_LOW + BITS_HIGH

def WORDS_LOW : Nat := BITS_LOW / 32
def WORDS_HIGH : Nat := BITS_HIGH / 32
def WORDS_TOT : Nat := BITS_TOT / 32

def LOW_PART : Nat := 1
def HIGH_PART : Nat := 2
def TOT_PIPELINE : Nat := 3

def OPERAND_0 : Nat := 0
def OPERAND_1 : Nat := 1
def OPERAND_2 : Nat := 2
def OPERAND_3 : Nat := 3
def MODULUS : Nat := 4

def ADDR_STEP : Nat := 0x4
def HIGH_OFFSET : Nat := WORDS_LOW * ADDR_STEP

def OP0_OFFSET : Nat := 0x00001000
def OP1_OFFSET : Nat := 0x00002000
def OP2_OFFSET : Nat := 0x00003000
def OP3_OFFSET : Nat := 0x00004000
def M_OFFSET : Nat := 0x00000000
def FIFO_OFFSET : Nat := 0x00005000

def P_SEL_BITS : Nat := 30
def DEST_BITS : Nat := 28
def X_OP_BITS : Nat := 26
def Y_OP_BITS : Nat := 24

def TIMEOUT_US : Nat := 140000

/-- The static `one` constant array: first word 1, remaining 47 words 0. -/
def one : List Nat := 1 :: List.replicate (WORDS_TOT - 1) 0

/-! ### Device state

Hardware-visible events, recorded in program order.  `cw` is a write of
the single 32-bit control register, `dw` a word write into the data
region at a byte offset, `fifoW` a push to the exponent streaming port,
`wait` one blocking call of the interrupt wait primitive. -/

inductive Ev where
  | cw (w : Nat)
  | dw (off v : Nat)
  | fifoW (v : Nat)
  | wait
deriving DecidableEq, Repr

/-- The session/device state (struct MME1536 plus the mapped hardware
state it drives).  `mem` is the data region, addressed by byte offset;
`fifo` is the sequence of words pushed to the exponent port. -/
structure MME1536 where
  ctrl : Nat
  mem : Nat → Nat
  fifo : List Nat
  prev_tot_ints : Int
  uioIntEnabled : Bool
  R2 : List Nat
  n : Nat
  words : Nat
  part : Nat
  trace : List Ev

/-! ### Raw data-region access (MME1536_SetData / MME1536_GetData) -/

/-- Store `data` word-by-word starting at byte offset `off`, stepping by
`ADDR_STEP`; each store truncates to 32 bits. -/
def writeWords : (Nat → Nat) → Nat → List Nat → (Nat → Nat)
  | mem, _, [] => mem
  | mem, off, d :: ds =>
      writeWords (fun a => if a = off then d % 2 ^ 32 else mem a) (off + ADDR_STEP) ds

/-- Read `cnt` words starting at byte offset `off`, stepping by `ADDR_STEP`. -/
def readWords (mem : Nat → Nat) (off cnt : Nat) : List Nat :=
  (List.range cnt).map fun i => mem (off + ADDR_STEP * i)

/-- Data-write events produced by one `MME1536_SetData` call. -/
def dwEvents : Nat → List Nat → List Ev
  | _, [] => []
  | off, d :: ds => Ev.dw off (d % 2 ^ 32) :: dwEvents (off + ADDR_STEP) ds

/-- MME1536_SetData: write all words of `data` into the data region. -/
def MME1536_SetData (data : List Nat) (off : Nat) (s : MME1536) : MME1536 :=
  { s with mem := writeWords s.mem off data, trace := s.trace ++ dwEvents off data }

/-- MME1536_GetData: writes the control register with only the
destination bits set for `operand`, then reads `cnt` words. -/
def MME1536_GetData (off operand cnt : Nat) (s : MME1536) : List Nat × MME1536 :=
  let control := (operand <<< DEST_BITS) % 2 ^ 32
  (readWords s.mem off cnt,
   { s with ctrl := control, trace := s.trace ++ [Ev.cw control] })

/-! ### Operand codec (MME1536_SetOperand / MME1536_GetOperand) -/

/-- Slot-id to address offset, all five slots (SetOperand's switch). -/
def operandOffset (operand : Nat) : Option Nat :=
  if operand = OPERAND_0 then some OP0_OFFSET
  else if operand = OPERAND_1 then some OP1_OFFSET
  else if operand = OPERAND_2 then some OP2_OFFSET
  else if operand = OPERAND_3 then some OP3_OFFSET
  else if operand = MODULUS then some M_OFFSET
  else none

/-- Slot-id to address offset for reads (GetOperand's switch: the
modulus slot is not readable). -/
def getOperandOffset (operand : Nat) : Option Nat :=
  if operand = OPERAND_0 then some OP0_OFFSET
  else if operand = OPERAND_1 then some OP1_OFFSET
  else if operand = OPERAND_2 then some OP2_OFFSET
  else if operand = OPERAND_3 then some OP3_OFFSET
  else none

/-- The 48-word buffer actually transferred by SetOperand: for the low
width the data fills the first 16 words of a zeroed buffer, for the high
width words 16..47, for the total width the data is used as-is.
Translates the zero-initialised `zeros` array plus the copy loops. -/
def placeOperand (data : List Nat) (length : Nat) : Option (List Nat) :=
  if length = BITS_LOW then
    some ((List.range WORDS_TOT).map fun w =>
      if w < WORDS_LOW then data.getD w 0 else 0)
  else if length = BITS_HIGH then
    some ((List.range WORDS_TOT).map fun w =>
      if w < WORDS_LOW then 0 else data.getD (w - WORDS_LOW) 0)
  else if length = BITS_TOT then
    some data
  else none

/-- MME1536_SetOperand: returns the C error code and the new state. -/
def MME1536_SetOperand (data : List Nat) (operand length : Nat) (s : MME1536) :
    Int × MME1536 :=
  match operandOffset operand with
  | none => (-1, s)
  | some off =>
    match placeOperand data length with
    | none => (-1, s)
    | some d => (0, MME1536_SetData d off s)

/-- MME1536_SetOperand_m: the C body is a verbatim copy of SetOperand
with the width taken from the session's configured modulus length. -/
def MME1536_SetOperand_m (data : List Nat) (operand : Nat) (s : MME1536) :
    Int × MME1536 :=
  MME1536_SetOperand data operand s.n s

/-- GetOperand's width switch: address bias and word count. -/
def readOffsetWords (length : Nat) : Option (Nat × Nat) :=
  if length = BITS_LOW then some (0, WORDS_LOW)
  else if length = BITS_HIGH then some (HIGH_OFFSET, WORDS_HIGH)
  else if length = BITS_TOT then some (0, WORDS_TOT)
  else none

/-- MME1536_GetOperand: `none` models the -1 error return. -/
def MME1536_GetOperand (operand length : Nat) (s : MME1536) :
    Option (List Nat) × MME1536 :=
  match getOperandOffset operand with
  | none => (none, s)
  | some off =>
    match readOffsetWords length with
    | none => (none, s)
    | some bw =>
      let r := MME1536_GetData (off + bw.1) operand bw.2 s
      (some r.1, r.2)

/-- MME1536_GetOperand_m: width policy from the session (`n`, `words`). -/
def MME1536_GetOperand_m (operand : Nat) (s : MME1536) :
    Option (List Nat) × MME1536 :=
  match getOperandOffset operand with
  | none => (none, s)
  | some off =>
    let off := if s.n = BITS_HIGH then off + HIGH_OFFSET else off
    let r := MME1536_GetData off operand s.words s
    (some r.1, r.2)

/-! ### Exponent feed (MME1536_SetExponent) -/

/-- First FIFO entry for word index `i`: upper 16-bit halves.  With `e1`
present, `e1`'s upper half keeps bits 16..31 and `e0`'s upper half is
shifted down into bits 0..15; with `e1` absent only the shifted-down
`e0` upper half is pushed. -/
def upperEntry (e0 : List Nat) (e1 : Option (List Nat)) (i : Nat) : Nat :=
  (match e1 with
   | none => (e0.getD i 0 &&& 0xffff0000) >>> 16
   | some e1 => (e1.getD i 0 &&& 0xffff0000) ||| ((e0.getD i 0 &&& 0xffff0000) >>> 16)
  ) % 2 ^ 32

/-- Second FIFO entry for word index `i`: lower 16-bit halves, `e1`'s
shifted up into bits 16..31 when present. -/
def lowerEntry (e0 : List Nat) (e1 : Option (List Nat)) (i : Nat) : Nat :=
  (match e1 with
   | none => e0.getD i 0 &&& 0x0000ffff
   | some e1 => ((e1.getD i 0 &&& 0x0000ffff) <<< 16) ||| (e0.getD i 0 &&& 0x0000ffff)
  ) % 2 ^ 32

/-- The `for(i = words-1; i >= 0; i--)` loop of SetExponent: `setExpLoop
e0 e1 w` is the FIFO word sequence produced when `words = w`, pushing
the two entries for index `w-1` first, down to index `0`. -/
def setExpLoop (e0 : List Nat) (e1 : Option (List Nat)) : Nat → List Nat
  | 0 => []
  | j + 1 => upperEntry e0 e1 j :: lowerEntry e0 e1 j :: setExpLoop e0 e1 j

/-- MME1536_SetExponent: rejects a bit length that is not a multiple of
32 (error is logged, nothing written), otherwise streams the exponent
words most-significant-word first. -/
def MME1536_SetExponent (e0 : List Nat) (e1 : Option (List Nat)) (t : Nat)
    (s : MME1536) : MME1536 :=
  if t % 32 ≠ 0 then s
  else
    let entries := setExpLoop e0 e1 (t / 32)
    { s with fifo := s.fifo ++ entries, trace := s.trace ++ entries.map Ev.fifoW }

/-! ### Start operations (MME1536_StartSingle / MME1536_StartAuto) -/

/-- The first control word written by StartSingle: low 22 bits of the
previously read control value retained, pipeline-part / destination /
operand-X / operand-Y fields installed, start bit (bit 23) set. -/
def singleCtrlWord (prev p d x y : Nat) : Nat :=
  ((prev &&& 0x003fffff) ||| (p <<< P_SEL_BITS) ||| (d <<< DEST_BITS) |||
   (x <<< X_OP_BITS) ||| (y <<< Y_OP_BITS) ||| 0x00800000) % 2 ^ 32

/-- The first control word written by StartAuto: start and auto-run bits
plus the pipeline-part selector. -/
def autoCtrlWord (p : Nat) : Nat :=
  (0x00c00000 ||| (p <<< P_SEL_BITS)) % 2 ^ 32

/-- MME1536_StartSingle: write the full control word with the start bit
set, then (after the mandatory delay) rewrite it with only the start bit
cleared. -/
def MME1536_StartSingle (p d x y : Nat) (s : MME1536) : MME1536 :=
  let w1 := singleCtrlWord s.ctrl p d x y
  let w2 := w1 &&& 0xff7fffff
  { s with ctrl := w2, trace := s.trace ++ [Ev.cw w1, Ev.cw w2] }

/-- MME1536_StartSingle_m: the C body is a verbatim copy of StartSingle
with the pipeline part taken from the session. -/
def MME1536_StartSingle_m (d x y : Nat) (s : MME1536) : MME1536 :=
  MME1536_StartSingle s.part d x y s

/-- MME1536_StartAuto. -/
def MME1536_StartAuto (p : Nat) (s : MME1536) : MME1536 :=
  let w1 := autoCtrlWord p
  let w2 := w1 &&& 0xff7fffff
  { s with ctrl := w2, trace := s.trace ++ [Ev.cw w1, Ev.cw w2] }

/-- MME1536_StartAuto_m. -/
def MME1536_StartAuto_m (s : MME1536) : MME1536 :=
  MME1536_StartAuto s.part s

/-! ### Interrupt wait protocol (MME1536_WaitUntilReady)

The environment is modelled by two streams: `reads k` is the interrupt
count returned by the `k`-th read of the interrupt descriptor, and
`times k` is the microsecond clock value observed right after that read.
`fuel` bounds the number of loop iterations we are willing to unfold; a
run that has not exited within `fuel` reads is `none`. -/

/-- One C loop iteration, starting at read index `k`: read the counter,
read the clock, break on `current_time >= timeout` (timed-out exit),
otherwise exit normally once a strictly greater count was read. -/
def waitLoopAux (reads : Nat → Int) (times : Nat → Nat) (prev : Int)
    (deadline : Nat) : Nat → Nat → Option (Int × Bool)
  | 0, _ => none
  | fuel + 1, k =>
    let v := reads k
    if deadline ≤ times k then some (v, true)
    else if prev < v then some (v, false)
    else waitLoopAux reads times prev deadline fuel (k + 1)

/-- The whole wait loop including the initial `ints_passed = -1` check
of the `while` condition: if `-1 > prev` the loop body never runs and
the final `ints_passed` is `-1`. -/
def waitRun (reads : Nat → Int) (times : Nat → Nat) (prev : Int)
    (deadline fuel : Nat) : Option (Int × Bool) :=
  if prev < -1 then some (-1, false)
  else waitLoopAux reads times prev deadline fuel 0

/-- MME1536_WaitUntilReady: the deadline is `t0 + TIMEOUT_US` where `t0`
is the clock at call time.  On every exit the session's last-observed
count becomes the final `ints_passed` value and the UIO interrupt-enable
flag is re-armed (`write(ctrl_fd, &enable, ...)`). -/
def MME1536_WaitUntilReady (reads : Nat → Int) (times : Nat → Nat)
    (t0 fuel : Nat) (s : MME1536) : Option MME1536 :=
  match waitRun reads times s.prev_tot_ints (t0 + TIMEOUT_US) fuel with
  | none => none
  | some vb =>
      some { s with prev_tot_ints := vb.1, uioIntEnabled := true,
                    trace := s.trace ++ [Ev.wait] }

/-- Environment of one WaitUntilReady call. -/
structure WaitEnv where
  reads : Nat → Int
  times : Nat → Nat
  t0 : Nat
  fuel : Nat

def waitWith (w : WaitEnv) (s : MME1536) : Option MME1536 :=
  MME1536_WaitUntilReady w.reads w.times w.t0 w.fuel s

/-! ### R² precomputation and modulus update -/

/-- Little-endian word-array value: `wordsVal [w0, w1, ...] = w0 +
2^32*w1 + ...` (the semantics of `mpz_import(..., -1, 4, 0, 0, ...)`). -/
def wordsVal : List Nat → Nat
  | [] => 0
  | w :: ws => w + 2 ^ 32 * wordsVal ws

/-- Base-2^32 digits of a number, least-significant first, without
trailing zeros: the exact word sequence `mpz_export(..., -1, 4, 0, 0,
...)` writes. -/
def natDigits (r : Nat) : List Nat :=
  if r = 0 then [] else (r % 2 ^ 32) :: natDigits (r / 2 ^ 32)
termination_by r
decreasing_by exact Nat.div_lt_self (Nat.pos_of_ne_zero (by assumption)) (by norm_num)

/-- MME1536_ComputeR2, with the GMP calls given their documented
semantics: `mpz_import` reads `n/32` little-endian words of `m`,
`mpz_powm_ui` computes `2^(2n) mod m`, and `mpz_export` overwrites the
leading words of the caller's buffer with the result's significant
words, leaving the rest of the buffer untouched. -/
def MME1536_ComputeR2 (buf m : List Nat) (n : Nat) : List Nat :=
  let mv := wordsVal (m.take (n / 32))
  let r := 2 ^ (2 * n) % mv
  natDigits r ++ buf.drop (natDigits r).length

/-- MME1536_UpdateModulus: select the pipeline part from `n` (keeping
the old part and only logging on an unsupported length), store `n` and
its word count, zero the cached R² buffer, recompute R², and write the
modulus into the modulus slot. -/
def MME1536_UpdateModulus (m : List Nat) (n : Nat) (s : MME1536) : MME1536 :=
  let part :=
    if n = BITS_LOW then LOW_PART
    else if n = BITS_HIGH then HIGH_PART
    else if n = BITS_TOT then TOT_PIPELINE
    else s.part
  let s1 := { s with part := part, n := n, words := n / 32,
                     R2 := MME1536_ComputeR2 (List.replicate WORDS_TOT 0) m n }
  (MME1536_SetOperand m MODULUS n s1).2

/-! ### Orchestration: modular exponentiation (MME1536_Exp_m) -/

/-- MME1536_Exp_m: load g, R² and the constant one; single-step g·R²
and 1·R²; feed the exponent; auto-run; single-step the post-correction;
read back operand 3.  `env k` supplies the environment of the `k`-th
WaitUntilReady call. -/
def MME1536_Exp_m (env : Nat → WaitEnv) (g e : List Nat) (t : Nat)
    (s : MME1536) : Option (List Nat × MME1536) := do
  let s := (MME1536_SetOperand_m g OPERAND_0 s).2
  let s := (MME1536_SetOperand_m s.R2 OPERAND_1 s).2
  let s := (MME1536_SetOperand_m one OPERAND_2 s).2
  let s := MME1536_StartSingle_m OPERAND_0 OPERAND_0 OPERAND_1 s
  let s ← waitWith (env 0) s
  let s := MME1536_StartSingle_m OPERAND_3 OPERAND_2 OPERAND_1 s
  let s ← waitWith (env 1) s
  let s := MME1536_SetExponent e none t s
  let s := MME1536_StartAuto_m s
  let s ← waitWith (env 2) s
  let s := MME1536_StartSingle_m OPERAND_3 OPERAND_2 OPERAND_3 s
  let s ← waitWith (env 3) s
  let r := MME1536_GetOperand_m OPERAND_3 s
  return (r.1.getD [], r.2)

/-- Count of interrupt waits in a trace. -/
def waitCount (tr : List Ev) : Nat :=
  tr.countP fun ev => match ev with | Ev.wait => true | _ => false

/-! ### Session construction (MME1536_Init, modelling MME1536_Initialize)

Resource acquisition is modelled by an environment saying which of the
acquisition steps succeeds; the result records which resources are held
when the function returns. -/

structure InitEnv where
  openDevMemOk : Bool
  mmapDataOk : Bool
  openUioOk : Bool
  mmapCtrlOk : Bool
  writeEnosys : Bool
  mallocOk : Bool
deriving DecidableEq, Repr

structure Resources where
  dataFdOpen : Bool
  dataMapped : Bool
  ctrlFdOpen : Bool
  ctrlMapped : Bool
  r2Alloc : Bool
deriving DecidableEq, Repr

def noResources : Resources :=
  { dataFdOpen := false, dataMapped := false, ctrlFdOpen := false,
    ctrlMapped := false, r2Alloc := false }

/-- MME1536_Initialize: open /dev/mem, map the data region, open the
UIO device, map the control region, enable the UIO interrupt
(`write == ENOSYS` check), allocate R².  The `failed2`/`failed1` labels
unmap the control region and close the control descriptor; no failure
path releases the data-region resources. -/
def MME1536_Init (e : InitEnv) : Int × Resources :=
  if !e.openDevMemOk then (-1, noResources)
  else
    let r1 := { noResources with dataFdOpen := true }
    if !e.mmapDataOk then (-1, r1)
    else
      let r2 := { r1 with dataMapped := true }
      if !e.openUioOk then (-1, r2)
      else
        let r3 := { r2 with ctrlFdOpen := true }
        if !e.mmapCtrlOk then
          (-1, { r3 with ctrlFdOpen := false })
        else
          let r4 := { r3 with ctrlMapped := true }
          if e.writeEnosys then
            (-1, { r4 with ctrlMapped := false, ctrlFdOpen := false })
          else if !e.mallocOk then
            (-1, { r4 with ctrlMapped := false, ctrlFdOpen := false })
          else (0, { r4 with r2Alloc := true })

/-! ### Shared helper lemmas and a concrete session for witnesses -/

/-- A concrete freshly-zeroed session. -/
def s0 : MME1536 :=
  { ctrl := 0, mem := fun _ => 0, fifo := [], prev_tot_ints := 0,
    uioIntEnabled := false, R2 := [], n := 0, words := 0, part := 0, trace := [] }

/-- Clearing the start bit with the mask 0xff7fffff leaves every bit
other than bit 23 of a 32-bit word unchanged and clears bit 23. -/
theorem testBit_clearStart (w : Nat) (hw : w < 2 ^ 32) :
    (∀ j, j ≠ 23 → Nat.testBit (w &&& 0xff7fffff) j = Nat.testBit w j) ∧
      Nat.testBit (w &&& 0xff7fffff) 23 = false := by
  constructor
  · intro j hj
    rw [Nat.testBit_and]
    by_cases h32 : j < 32
    · have hm : Nat.testBit 0xff7fffff j = true := by
        interval_cases j <;> revert hj <;> decide
      rw [hm, Bool.and_true]
    · have hz : Nat.testBit w j = false :=
        Nat.testBit_lt_two_pow
          (lt_of_lt_of_le hw (Nat.pow_le_pow_right (by norm_num) (le_of_not_lt h32)))
      simp [hz]
  · rw [Nat.testBit_and]
    have hm : Nat.testBit 0xff7fffff 23 = false := by decide
    simp [hm]

theorem singleCtrlWord_lt (prev p d x y : Nat) :
    singleCtrlWord prev p d x y < 2 ^ 32 :=
  Nat.mod_lt _ (by norm_num)

theorem autoCtrlWord_lt (p : Nat) : autoCtrlWord p < 2 ^ 32 :=
  Nat.mod_lt _ (by norm_num)

theorem singleCtrlWord_startBit (prev p d x y : Nat) :
    Nat.testBit (singleCtrlWord prev p d x y) 23 = true := by
  have h : Nat.testBit 0x00800000 23 = true := by decide
  unfold singleCtrlWord
  rw [Nat.testBit_mod_two_pow, Nat.testBit_or, h]
  simp

theorem autoCtrlWord_startBit (p : Nat) :
    Nat.testBit (autoCtrlWord p) 23 = true := by
  have h : Nat.testBit 0x00c00000 23 = true := by decide
  unfold autoCtrlWord
  rw [Nat.testBit_mod_two_pow, Nat.testBit_or, h]
  simp

/-! ### Claim theorems -/

/-- C6: every single-step or auto-run start operation performs exactly
two control-register writes; the first is a fully-formed control word
with the start bit (bit 23) set, and the second differs from the first
only in that the start bit is cleared (every other bit is identical
across the two writes). -/
theorem start_ops_two_ctrl_writes (s : MME1536) (p d x y : Nat) :
    ((MME1536_StartSingle p d x y s).trace
        = s.trace ++ [Ev.cw (singleCtrlWord s.ctrl p d x y),
                      Ev.cw (singleCtrlWord s.ctrl p d x y &&& 0xff7fffff)] ∧
      (MME1536_StartAuto p s).trace
        = s.trace ++ [Ev.cw (autoCtrlWord p),
                      Ev.cw (autoCtrlWord p &&& 0xff7fffff)]) ∧
    (Nat.testBit (singleCtrlWord s.ctrl p d x y) 23 = true ∧
      Nat.testBit (autoCtrlWord p) 23 = true) ∧
    (Nat.testBit (singleCtrlWord s.ctrl p d x y &&& 0xff7fffff) 23 = false ∧
      Nat.testBit (autoCtrlWord p &&& 0xff7fffff) 23 = false) ∧
    (∀ j, j ≠ 23 →
      Nat.testBit (singleCtrlWord s.ctrl p d x y &&& 0xff7fffff) j
        = Nat.testBit (singleCtrlWord s.ctrl p d x y) j) ∧
    (∀ j, j ≠ 23 →
      Nat.testBit (autoCtrlWord p &&& 0xff7fffff) j = Nat.testBit (autoCtrlWord p) j) :=
  ⟨⟨rfl, rfl⟩,
   ⟨singleCtrlWord_startBit s.ctrl p d x y, autoCtrlWord_startBit p⟩,
   ⟨(testBit_clearStart _ (singleCtrlWord_lt s.ctrl p d x y)).2,
    (testBit_clearStart _ (autoCtrlWord_lt p)).2⟩,
   (testBit_clearStart _ (singleCtrlWord_lt s.ctrl p d x y)).1,
   (testBit_clearStart _ (autoCtrlWord_lt p)).1⟩

/-- C4 (code bug): when opening /dev/mem and mapping the data region
succeed but opening the UIO device fails, MME1536_Initialize returns
its error with the data region still mapped and the /dev/mem descriptor
still open — the acquired resources are not released. -/
theorem init_leaks_data_region_on_uio_open_failure :
    (MME1536_Init { openDevMemOk := true, mmapDataOk := true, openUioOk := false,
                    mmapCtrlOk := true, writeEnosys := false, mallocOk := true }).1 = -1 ∧
    (MME1536_Init { openDevMemOk := true, mmapDataOk := true, openUioOk := false,
                    mmapCtrlOk := true, writeEnosys := false, mallocOk := true }).2.dataMapped
      = true ∧
    (MME1536_Init { openDevMemOk := true, mmapDataOk := true, openUioOk := false,
                    mmapCtrlOk := true, writeEnosys := false, mallocOk := true }).2.dataFdOpen
      = true := by
  refine ⟨rfl, rfl, rfl⟩

/-- Bits of the destination-only control word written by GetData. -/
theorem destWord_bits (slot : Nat) (hslot : slot ≤ 3) :
    Nat.testBit ((slot <<< DEST_BITS) % 2 ^ 32) 28 = Nat.testBit slot 0 ∧
    Nat.testBit ((slot <<< DEST_BITS) % 2 ^ 32) 29 = Nat.testBit slot 1 ∧
    ∀ j, j ≠ 28 → j ≠ 29 → Nat.testBit ((slot <<< DEST_BITS) % 2 ^ 32) j = false := by
  refine ⟨?_, ?_, ?_⟩
  · rw [Nat.testBit_mod_two_pow, Nat.testBit_shiftLeft]
    simp [DEST_BITS]
  · rw [Nat.testBit_mod_two_pow, Nat.testBit_shiftLeft]
    simp [DEST_BITS]
  · intro j h28 h29
    rw [Nat.testBit_mod_two_pow, Nat.testBit_shiftLeft]
    by_cases hj : j < 28
    · have : ¬ (j ≥ DEST_BITS) := by simp [DEST_BITS]; omega
      simp [this]
    · have hge : j ≥ 30 := by omega
      have hbit : Nat.testBit slot (j - DEST_BITS) = false := by
        refine Nat.testBit_lt_two_pow (lt_of_le_of_lt hslot ?_)
        calc (3 : Nat) < 2 ^ 2 := by norm_num
        _ ≤ 2 ^ (j - DEST_BITS) := Nat.pow_le_pow_right (by norm_num) (by simp [DEST_BITS]; omega)
      simp [hbit]

/-- C10: every operand read (GetOperand or GetOperand_m, any valid slot,
any of the three widths) first overwrites the entire control register
with a word whose only non-zero field is the destination-slot selector
(bits 28..29); the pipeline-part, operand-X, operand-Y, start and
auto-run fields are all cleared to zero by that write. -/
theorem getOperand_writes_dest_only_ctrl (s : MME1536) (slot width : Nat)
    (hslot : slot = OPERAND_0 ∨ slot = OPERAND_1 ∨ slot = OPERAND_2 ∨ slot = OPERAND_3)
    (hwidth : width = BITS_LOW ∨ width = BITS_HIGH ∨ width = BITS_TOT) :
    ((MME1536_GetOperand slot width s).2.trace
        = s.trace ++ [Ev.cw ((slot <<< DEST_BITS) % 2 ^ 32)] ∧
      (MME1536_GetOperand slot width s).2.ctrl = (slot <<< DEST_BITS) % 2 ^ 32 ∧
      (MME1536_GetOperand_m slot s).2.trace
        = s.trace ++ [Ev.cw ((slot <<< DEST_BITS) % 2 ^ 32)] ∧
      (MME1536_GetOperand_m slot s).2.ctrl = (slot <<< DEST_BITS) % 2 ^ 32) ∧
    Nat.testBit ((slot <<< DEST_BITS) % 2 ^ 32) 28 = Nat.testBit slot 0 ∧
    Nat.testBit ((slot <<< DEST_BITS) % 2 ^ 32) 29 = Nat.testBit slot 1 ∧
    ∀ j, j ≠ 28 → j ≠ 29 → Nat.testBit ((slot <<< DEST_BITS) % 2 ^ 32) j = false := by
  have h3 : slot ≤ 3 := by
    rcases hslot with rfl | rfl | rfl | rfl <;> simp [OPERAND_0, OPERAND_1, OPERAND_2, OPERAND_3]
  refine ⟨?_, destWord_bits slot h3⟩
  rcases hslot with rfl | rfl | rfl | rfl <;>
    rcases hwidth with rfl | rfl | rfl <;>
      exact ⟨rfl, rfl, rfl, rfl⟩

/-- Witness for C10 at slot OPERAND_2, width 512, on the zeroed session. -/
theorem getOperand_writes_dest_only_ctrl_witness :
    (OPERAND_2 = OPERAND_0 ∨ OPERAND_2 = OPERAND_1 ∨ OPERAND_2 = OPERAND_2 ∨
        OPERAND_2 = OPERAND_3) ∧
    (BITS_LOW = BITS_LOW ∨ BITS_LOW = BITS_HIGH ∨ BITS_LOW = BITS_TOT) ∧
    (((MME1536_GetOperand OPERAND_2 BITS_LOW s0).2.trace
        = s0.trace ++ [Ev.cw ((OPERAND_2 <<< DEST_BITS) % 2 ^ 32)] ∧
      (MME1536_GetOperand OPERAND_2 BITS_LOW s0).2.ctrl
        = (OPERAND_2 <<< DEST_BITS) % 2 ^ 32 ∧
      (MME1536_GetOperand_m OPERAND_2 s0).2.trace
        = s0.trace ++ [Ev.cw ((OPERAND_2 <<< DEST_BITS) % 2 ^ 32)] ∧
      (MME1536_GetOperand_m OPERAND_2 s0).2.ctrl
        = (OPERAND_2 <<< DEST_BITS) % 2 ^ 32) ∧
    Nat.testBit ((OPERAND_2 <<< DEST_BITS) % 2 ^ 32) 28 = Nat.testBit OPERAND_2 0 ∧
    Nat.testBit ((OPERAND_2 <<< DEST_BITS) % 2 ^ 32) 29 = Nat.testBit OPERAND_2 1 ∧
    ∀ j, j ≠ 28 → j ≠ 29 →
      Nat.testBit ((OPERAND_2 <<< DEST_BITS) % 2 ^ 32) j = false) :=
  ⟨Or.inr (Or.inr (Or.inl rfl)), Or.inl rfl,
   getOperand_writes_dest_only_ctrl s0 OPERAND_2 BITS_LOW
     (Or.inr (Or.inr (Or.inl rfl))) (Or.inl rfl)⟩

/-- C8: an unknown operand slot or an unsupported bit-width makes
SetOperand return the error code -1 with the session state (memory,
FIFO, trace) completely unchanged, and a SetExponent bit length that is
not a multiple of 32 leaves the state unchanged as well — in every case
the operation aborts before any write to the hardware data region. -/
theorem codec_invalid_input_aborts (s : MME1536) (data e0 : List Nat)
    (e1 : Option (List Nat)) (slot width t : Nat) :
    (¬ (slot = OPERAND_0 ∨ slot = OPERAND_1 ∨ slot = OPERAND_2 ∨
          slot = OPERAND_3 ∨ slot = MODULUS) →
      MME1536_SetOperand data slot width s = (-1, s)) ∧
    (¬ (width = BITS_LOW ∨ width = BITS_HIGH ∨ width = BITS_TOT) →
      MME1536_SetOperand data slot width s = (-1, s)) ∧
    (t % 32 ≠ 0 → MME1536_SetExponent e0 e1 t s = s) := by
  refine ⟨?_, ?_, ?_⟩
  · intro h
    push_neg at h
    obtain ⟨h0, h1, h2, h3, h4⟩ := h
    unfold MME1536_SetOperand operandOffset
    simp [h0, h1, h2, h3, h4]
  · intro h
    push_neg at h
    obtain ⟨h0, h1, h2⟩ := h
    unfold MME1536_SetOperand placeOperand
    rcases ho : operandOffset slot with _ | off
    · rfl
    · simp [h0, h1, h2]
  · intro h
    unfold MME1536_SetExponent
    simp [h]

/-- Witness for C8: slot 7 is unknown, width 777 unsupported, and 5 is
not a multiple of 32; all three aborts leave the zeroed session intact. -/
theorem codec_invalid_input_aborts_witness :
    (¬ (7 = OPERAND_0 ∨ 7 = OPERAND_1 ∨ 7 = OPERAND_2 ∨ 7 = OPERAND_3 ∨
          7 = MODULUS)) ∧
    (¬ (777 = BITS_LOW ∨ 777 = BITS_HIGH ∨ 777 = BITS_TOT)) ∧
    (5 % 32 ≠ 0) ∧
    MME1536_SetOperand [] 7 BITS_LOW s0 = (-1, s0) ∧
    MME1536_SetOperand [] OPERAND_0 777 s0 = (-1, s0) ∧
    MME1536_SetExponent [] none 5 s0 = s0 :=
  ⟨by decide, by decide, by decide,
   (codec_invalid_input_aborts s0 [] [] none 7 BITS_LOW 5).1 (by decide),
   (codec_invalid_input_aborts s0 [] [] none OPERAND_0 777 5).2.1 (by decide),
   (codec_invalid_input_aborts s0 [] [] none OPERAND_0 777 5).2.2 (by decide)⟩

/-- C8 counterexample: MME1536_SetExponent is a void C function, so on
the invalid bit length 5 the offending primitive returns no error code
at all — everything it yields (the session state, its only output) is
identical to the outcome of a successful call with the valid bit length
0, so no caller can receive an error code from it. -/
theorem setExponent_returns_no_error_code :
    (5 : Nat) % 32 ≠ 0 ∧ (0 : Nat) % 32 = 0 ∧
    MME1536_SetExponent [] none 5 s0 = s0 ∧
    MME1536_SetExponent [] none 5 s0 = MME1536_SetExponent [] none 0 s0 :=
  ⟨by decide, rfl, rfl, rfl⟩

theorem setExpLoop_length (e0 : List Nat) (e1 : Option (List Nat)) :
    ∀ w, (setExpLoop e0 e1 w).length = 2 * w := by
  intro w
  induction w with
  | zero => rfl
  | succ j ih => simp [setExpLoop, ih]; omega

theorem setExpLoop_getD (e0 : List Nat) (e1 : Option (List Nat)) :
    ∀ w k, k < w →
      (setExpLoop e0 e1 w).getD (2 * k) 0 = upperEntry e0 e1 (w - 1 - k) ∧
      (setExpLoop e0 e1 w).getD (2 * k + 1) 0 = lowerEntry e0 e1 (w - 1 - k) := by
  intro w
  induction w with
  | zero => intro k hk; omega
  | succ j ih =>
    intro k hk
    cases k with
    | zero => exact ⟨rfl, rfl⟩
    | succ k' =>
      have hk' : k' < j := by omega
      have harith : 2 * (k' + 1) = (2 * k' + 1) + 1 := by omega
      have hidx : j + 1 - 1 - (k' + 1) = j - 1 - k' := by omega
      rw [harith, hidx]
      simpa [setExpLoop] using ih k' hk'

/-- C3 counterexample: with `e1` absent and a single 32-bit word
0xABCD1234 the first FIFO entry pushed is 0x0000ABCD — the upper half
right-justified in the low 16 bits — not the left-justified 0xABCD0000
the claim requires. -/
theorem setExponent_e1_absent_counterexample :
    (MME1536_SetExponent [0xABCD1234] none 32 s0).fifo = [0x0000ABCD, 0x00001234] ∧
    (0x0000ABCD : Nat) ≠ 0xABCD0000 := by
  exact ⟨by decide, by decide⟩

/-- C3 (amended): for every bit length `t` that is a multiple of 32,
SetExponent appends exactly `2 * (t/32)` entries to the FIFO, streaming
word indices most-significant first: the `k`-th index streamed is
`t/32 - 1 - k`, and for it exactly two entries are pushed — first the
packed upper 16-bit halves (`e1`'s upper half in bits 16..31 and `e0`'s
upper half shifted down into bits 0..15; with `e1` absent just `e0`'s
upper half right-justified into the low 16 bits), then the lower halves
similarly (`e1`'s lower half shifted up, `e0`'s in the low bits). -/
theorem setExponent_stream (s : MME1536) (e0 : List Nat)
    (e1 : Option (List Nat)) (t : Nat) (h32 : t % 32 = 0) :
    (MME1536_SetExponent e0 e1 t s).fifo = s.fifo ++ setExpLoop e0 e1 (t / 32) ∧
    (setExpLoop e0 e1 (t / 32)).length = 2 * (t / 32) ∧
    ∀ k, k < t / 32 →
      (setExpLoop e0 e1 (t / 32)).getD (2 * k) 0 = upperEntry e0 e1 (t / 32 - 1 - k) ∧
      (setExpLoop e0 e1 (t / 32)).getD (2 * k + 1) 0 = lowerEntry e0 e1 (t / 32 - 1 - k) := by
  refine ⟨?_, setExpLoop_length e0 e1 (t / 32), setExpLoop_getD e0 e1 (t / 32)⟩
  unfold MME1536_SetExponent
  simp [h32]

/-- Witness for C3 (amended) at `e0 = [5]`, no `e1`, `t = 32`. -/
theorem setExponent_stream_witness :
    32 % 32 = 0 ∧
    ((MME1536_SetExponent [5] none 32 s0).fifo = s0.fifo ++ setExpLoop [5] none (32 / 32) ∧
      (setExpLoop [5] none (32 / 32)).length = 2 * (32 / 32) ∧
      ∀ k, k < 32 / 32 →
        (setExpLoop [5] none (32 / 32)).getD (2 * k) 0 = upperEntry [5] none (32 / 32 - 1 - k) ∧
        (setExpLoop [5] none (32 / 32)).getD (2 * k + 1) 0
          = lowerEntry [5] none (32 / 32 - 1 - k)) :=
  ⟨rfl, setExponent_stream s0 [5] none 32 rfl⟩

/-- Exit analysis of the wait loop: a run that returns did its last read
at some index `k`; a timed-out exit saw the deadline passed at `k`, a
normal exit read a strictly greater count at `k`, and every earlier
iteration saw neither exit condition. -/
theorem waitLoopAux_spec (reads : Nat → Int) (times : Nat → Nat) (prev : Int)
    (deadline : Nat) :
    ∀ fuel k0 v tb, waitLoopAux reads times prev deadline fuel k0 = some (v, tb) →
      ∃ k, k0 ≤ k ∧ reads k = v ∧
        (tb = true → deadline ≤ times k) ∧
        (tb = false → prev < v) ∧
        ∀ j, k0 ≤ j → j < k → times j < deadline ∧ reads j ≤ prev := by
  intro fuel
  induction fuel with
  | zero => intro k0 v tb h; simp [waitLoopAux] at h
  | succ f ih =>
    intro k0 v tb h
    unfold waitLoopAux at h
    by_cases ht : deadline ≤ times k0
    · rw [if_pos ht] at h
      obtain ⟨hv, hto⟩ := Prod.mk.injEq .. ▸ Option.some.inj h
      refine ⟨k0, le_refl _, hv, fun _ => ht, ?_, ?_⟩
      · intro hfalse; rw [← hto] at hfalse; cases hfalse
      · intro j hj1 hj2; omega
    · rw [if_neg ht] at h
      by_cases hv : prev < reads k0
      · rw [if_pos hv] at h
        obtain ⟨hveq, hto⟩ := Prod.mk.injEq .. ▸ Option.some.inj h
        refine ⟨k0, le_refl _, hveq, ?_, fun _ => hveq ▸ hv, ?_⟩
        · intro htrue; rw [← hto] at htrue; cases htrue
        · intro j hj1 hj2; omega
      · rw [if_neg hv] at h
        obtain ⟨k, hk0, hr, hto, hfo, hfa⟩ := ih (k0 + 1) v tb h
        refine ⟨k, by omega, hr, hto, hfo, ?_⟩
        intro j hj1 hj2
        rcases Nat.eq_or_lt_of_le hj1 with rfl | hgt
        · exact ⟨not_le.mp ht, not_lt.mp hv⟩
        · exact hfa j hgt hj2

/-- C5: a terminating WaitUntilReady call exits only once a strictly
greater interrupt count has been read or the deadline computed at call
time has elapsed; on every exit the session's last-observed count equals
the most recently read value, every earlier read met neither exit
condition, and the interrupt-enable flag is re-armed. -/
theorem waitUntilReady_exit (reads : Nat → Int) (times : Nat → Nat)
    (t0 fuel : Nat) (s s' : MME1536) (hprev : -1 ≤ s.prev_tot_ints)
    (h : MME1536_WaitUntilReady reads times t0 fuel s = some s') :
    (∃ k, reads k = s'.prev_tot_ints ∧
      (s.prev_tot_ints < s'.prev_tot_ints ∨ t0 + TIMEOUT_US ≤ times k) ∧
      ∀ j, j < k → times j < t0 + TIMEOUT_US ∧ reads j ≤ s.prev_tot_ints) ∧
    s'.uioIntEnabled = true ∧
    s'.trace = s.trace ++ [Ev.wait] := by
  unfold MME1536_WaitUntilReady waitRun at h
  rw [if_neg (not_lt.mpr hprev)] at h
  rcases hw : waitLoopAux reads times s.prev_tot_ints (t0 + TIMEOUT_US) fuel 0 with _ | vb
  · rw [hw] at h; cases h
  · rw [hw] at h
    obtain ⟨k, _, hr, hto, hfo, hfa⟩ :=
      waitLoopAux_spec reads times s.prev_tot_ints (t0 + TIMEOUT_US) fuel 0 vb.1 vb.2 hw
    cases h
    refine ⟨⟨k, hr, ?_, fun j hj => hfa j (Nat.zero_le j) hj⟩, rfl, rfl⟩
    cases hb : vb.2 with
    | true => exact Or.inr (hto hb)
    | false => exact Or.inl (hfo hb)

/-- C9: under the interrupt descriptor's monotone-counter semantics
(every read returns at least the session's current last-observed count),
a terminating WaitUntilReady call never decreases the session's
last-observed interrupt count, on either exit path. -/
theorem waitUntilReady_monotone (reads : Nat → Int) (times : Nat → Nat)
    (t0 fuel : Nat) (s s' : MME1536)
    (hmono : ∀ k, s.prev_tot_ints ≤ reads k)
    (h : MME1536_WaitUntilReady reads times t0 fuel s = some s') :
    s.prev_tot_ints ≤ s'.prev_tot_ints := by
  unfold MME1536_WaitUntilReady waitRun at h
  by_cases hlt : s.prev_tot_ints < -1
  · rw [if_pos hlt] at h
    cases h
    exact le_of_lt (show s.prev_tot_ints < (-1 : Int) from hlt)
  · rw [if_neg hlt] at h
    rcases hw : waitLoopAux reads times s.prev_tot_ints (t0 + TIMEOUT_US) fuel 0 with _ | vb
    · rw [hw] at h; cases h
    · rw [hw] at h
      obtain ⟨k, _, hr, _, _, _⟩ :=
        waitLoopAux_spec reads times s.prev_tot_ints (t0 + TIMEOUT_US) fuel 0 vb.1 vb.2 hw
      cases h
      exact hr ▸ hmono k

/-- Constant environment used by the wait witnesses: every read returns
count 1, the clock stays at 0. -/
def cReads : Nat → Int := fun _ => 1

def cTimes : Nat → Nat := fun _ => 0

/-- The state after a successful wait on `s0` in that environment. -/
def w5s : MME1536 :=
  { s0 with prev_tot_ints := 1, uioIntEnabled := true, trace := [Ev.wait] }

/-- Witness for C5 on the concrete environment. -/
theorem waitUntilReady_exit_witness :
    (-1 : Int) ≤ s0.prev_tot_ints ∧
    MME1536_WaitUntilReady cReads cTimes 0 1 s0 = some w5s ∧
    ((∃ k, cReads k = w5s.prev_tot_ints ∧
        (s0.prev_tot_ints < w5s.prev_tot_ints ∨ 0 + TIMEOUT_US ≤ cTimes k) ∧
        ∀ j, j < k → cTimes j < 0 + TIMEOUT_US ∧ cReads j ≤ s0.prev_tot_ints) ∧
      w5s.uioIntEnabled = true ∧
      w5s.trace = s0.trace ++ [Ev.wait]) :=
  ⟨by decide, rfl, waitUntilReady_exit cReads cTimes 0 1 s0 w5s (by decide) rfl⟩

/-- Witness for C9 on the concrete environment. -/
theorem waitUntilReady_monotone_witness :
    (∀ k, s0.prev_tot_ints ≤ cReads k) ∧
    MME1536_WaitUntilReady cReads cTimes 0 1 s0 = some w5s ∧
    s0.prev_tot_ints ≤ w5s.prev_tot_ints :=
  ⟨fun _ => show (0 : Int) ≤ 1 by decide, rfl,
   waitUntilReady_monotone cReads cTimes 0 1 s0 w5s
     (fun _ => show (0 : Int) ≤ 1 by decide) rfl⟩

/-! Wait-count bookkeeping for the orchestrator. -/

theorem waitCount_append (a b : List Ev) :
    waitCount (a ++ b) = waitCount a + waitCount b :=
  List.countP_append ..

theorem waitCount_dwEvents (d : List Nat) : ∀ off, waitCount (dwEvents off d) = 0 := by
  induction d with
  | nil => intro off; rfl
  | cons a l ih =>
    intro off
    have h := ih (off + ADDR_STEP)
    unfold waitCount at h ⊢
    show List.countP _ (Ev.dw off (a % 2 ^ 32) :: dwEvents (off + ADDR_STEP) l) = 0
    rw [List.countP_cons, h]
    rfl

theorem waitCount_fifoWs (l : List Nat) : waitCount (l.map Ev.fifoW) = 0 := by
  induction l with
  | nil => rfl
  | cons a l ih =>
    unfold waitCount at ih ⊢
    rw [List.map_cons, List.countP_cons, ih]
    rfl

theorem waitCount_setOperand (d : List Nat) (o l : Nat) (s : MME1536) :
    waitCount (MME1536_SetOperand d o l s).2.trace = waitCount s.trace := by
  unfold MME1536_SetOperand
  rcases ho : operandOffset o with _ | off
  · rfl
  · rcases hp : placeOperand d l with _ | pd
    · rfl
    · simp only [MME1536_SetData]
      rw [waitCount_append, waitCount_dwEvents]
      rfl

theorem waitCount_startSingle (p d x y : Nat) (s : MME1536) :
    waitCount (MME1536_StartSingle p d x y s).trace = waitCount s.trace := by
  unfold MME1536_StartSingle
  rw [waitCount_append]
  rfl

theorem waitCount_startAuto (p : Nat) (s : MME1536) :
    waitCount (MME1536_StartAuto p s).trace = waitCount s.trace := by
  unfold MME1536_StartAuto
  rw [waitCount_append]
  rfl

theorem waitCount_setExponent (e0 : List Nat) (e1 : Option (List Nat)) (t : Nat)
    (s : MME1536) :
    waitCount (MME1536_SetExponent e0 e1 t s).trace = waitCount s.trace := by
  unfold MME1536_SetExponent
  by_cases h : t % 32 ≠ 0
  · rw [if_pos h]
  · rw [if_neg h]
    simp only
    rw [waitCount_append, waitCount_fifoWs]
    rfl

theorem waitCount_getOperand_m (o : Nat) (s : MME1536) :
    waitCount (MME1536_GetOperand_m o s).2.trace = waitCount s.trace := by
  unfold MME1536_GetOperand_m
  rcases ho : getOperandOffset o with _ | off
  · rfl
  · simp only [MME1536_GetData]
    rw [waitCount_append]
    rfl

theorem waitCount_setOperand_m (d : List Nat) (o : Nat) (s : MME1536) :
    waitCount (MME1536_SetOperand_m d o s).2.trace = waitCount s.trace :=
  waitCount_setOperand d o s.n s

theorem waitCount_startSingle_m (d x y : Nat) (s : MME1536) :
    waitCount (MME1536_StartSingle_m d x y s).trace = waitCount s.trace :=
  waitCount_startSingle s.part d x y s

theorem waitCount_startAuto_m (s : MME1536) :
    waitCount (MME1536_StartAuto_m s).trace = waitCount s.trace :=
  waitCount_startAuto s.part s

theorem waitWith_count (w : WaitEnv) (s s' : MME1536) (h : waitWith w s = some s') :
    waitCount s'.trace = waitCount s.trace + 1 := by
  unfold waitWith MME1536_WaitUntilReady at h
  rcases hw : waitRun w.reads w.times s.prev_tot_ints (w.t0 + TIMEOUT_US) w.fuel with _ | vb
  · rw [hw] at h; cases h
  · rw [hw] at h
    cases h
    rw [waitCount_append]
    rfl

/-- C7 counterexample: on a concrete environment where every wait
completes, MME1536_Exp_m blocks on the wait primitive 4 times, not 5. -/
def envC7 : Nat → WaitEnv := fun i =>
  { reads := fun _ => (i : Int) + 1, times := fun _ => 0, t0 := 0, fuel := 1 }

theorem exp_m_not_five_waits :
    (MME1536_Exp_m envC7 [] [] 0 s0).map (fun p => waitCount p.2.trace) = some 4 ∧
    (4 : Nat) ≠ 5 :=
  ⟨rfl, by decide⟩

/-- C7 (amended): every completing execution of MME1536_Exp_m blocks on
the interrupt wait primitive exactly four times — after the g·R² single
step, after the 1·R² single step, after the auto-run, and after the
post-correction single step. -/
theorem exp_m_wait_count (env : Nat → WaitEnv) (g e : List Nat) (t : Nat)
    (s : MME1536) (p : List Nat × MME1536)
    (h : MME1536_Exp_m env g e t s = some p) :
    waitCount p.2.trace = waitCount s.trace + 4 := by
  unfold MME1536_Exp_m at h
  simp only [bind, Option.bind_eq_some] at h
  obtain ⟨sa, ha, h⟩ := h
  obtain ⟨sb, hb, h⟩ := h
  obtain ⟨sc, hc, h⟩ := h
  obtain ⟨sd, hd, h⟩ := h
  have hp : p = ((MME1536_GetOperand_m OPERAND_3 sd).1.getD [],
                 (MME1536_GetOperand_m OPERAND_3 sd).2) := by
    simpa [pure] using h.symm
  have c4 := waitWith_count _ _ _ hd
  have c3 := waitWith_count _ _ _ hc
  have c2 := waitWith_count _ _ _ hb
  have c1 := waitWith_count _ _ _ ha
  rw [waitCount_startSingle_m] at c4 c2
  rw [waitCount_startAuto_m, waitCount_setExponent] at c3
  rw [waitCount_startSingle_m, waitCount_setOperand_m, waitCount_setOperand_m,
      waitCount_setOperand_m] at c1
  rw [hp]
  simp only
  rw [waitCount_getOperand_m]
  omega

/-- Witness for C7 (amended) on the concrete completing environment. -/
theorem exp_m_wait_count_witness :
    MME1536_Exp_m envC7 [] [] 0 s0
        = some ((MME1536_Exp_m envC7 [] [] 0 s0).getD ([], s0)) ∧
    waitCount ((MME1536_Exp_m envC7 [] [] 0 s0).getD ([], s0)).2.trace
        = waitCount s0.trace + 4 :=
  ⟨rfl, exp_m_wait_count envC7 [] [] 0 s0 _ rfl⟩

/-! Memory-transfer lemmas for the operand codec. -/

theorem writeWords_untouched (d : List Nat) :
    ∀ (mem : Nat → Nat) (off a : Nat), a < off → writeWords mem off d a = mem a := by
  induction d with
  | nil => intro mem off a _; rfl
  | cons x l ih =>
    intro mem off a ha
    show writeWords (fun b => if b = off then x % 2 ^ 32 else mem b) (off + ADDR_STEP) l a
        = mem a
    rw [ih _ (off + ADDR_STEP) a (by omega)]
    simp [Nat.ne_of_lt ha]

theorem writeWords_get (d : List Nat) :
    ∀ (mem : Nat → Nat) (off i : Nat), i < d.length →
      writeWords mem off d (off + ADDR_STEP * i) = d.getD i 0 % 2 ^ 32 := by
  induction d with
  | nil => intro mem off i hi; simp at hi
  | cons x l ih =>
    intro mem off i hi
    have hstep : ADDR_STEP = 4 := rfl
    cases i with
    | zero =>
      show writeWords (fun b => if b = off then x % 2 ^ 32 else mem b) (off + ADDR_STEP) l
          (off + ADDR_STEP * 0) = (x :: l).getD 0 0 % 2 ^ 32
      rw [writeWords_untouched l _ (off + ADDR_STEP) (off + ADDR_STEP * 0) (by omega)]
      simp
    | succ j =>
      have haddr : off + ADDR_STEP * (j + 1) = (off + ADDR_STEP) + ADDR_STEP * j := by
        rw [hstep]; omega
      rw [haddr]
      show writeWords (fun b => if b = off then x % 2 ^ 32 else mem b) (off + ADDR_STEP) l
          ((off + ADDR_STEP) + ADDR_STEP * j) = (x :: l).getD (j + 1) 0 % 2 ^ 32
      rw [ih _ (off + ADDR_STEP) j (by simpa using hi)]
      rfl

theorem getD_range_map (f : Nat → Nat) (n i : Nat) :
    ((List.range n).map f).getD i 0 = if i < n then f i else 0 := by
  by_cases h : i < n
  · rw [List.getD_eq_getElem?_getD, List.getElem?_map, List.getElem?_range h]
    simp [h]
  · rw [List.getD_eq_getElem?_getD, List.getElem?_map]
    rw [List.getElem?_eq_none (by simpa using not_lt.mp h)]
    simp [h]

theorem range_map_getD (l : List Nat) :
    ((List.range l.length).map fun i => l.getD i 0) = l := by
  induction l with
  | nil => rfl
  | cons a t ih =>
    show (List.range (t.length + 1)).map _ = _
    rw [List.range_succ_eq_map, List.map_cons, List.map_map]
    have hf : ((fun i => (a :: t).getD i 0) ∘ Nat.succ) = fun i => t.getD i 0 := by
      funext i
      rfl
    rw [hf, ih]
    rfl

theorem getD_mem_lt (l : List Nat) (i : Nat) (hi : i < l.length)
    (hd : ∀ x ∈ l, x < 2 ^ 32) : l.getD i 0 % 2 ^ 32 = l.getD i 0 := by
  rw [List.getD_eq_getElem?_getD, List.getElem?_eq_getElem hi]
  exact Nat.mod_eq_of_lt (hd _ (List.getElem_mem hi))

/-- Core of the low-width round trip over an arbitrary data-region
memory and slot offset. -/
theorem roundtrip_low (mem : Nat → Nat) (off : Nat) (data : List Nat)
    (hlen : data.length = WORDS_LOW) (hd : ∀ x ∈ data, x < 2 ^ 32) :
    readWords (writeWords mem off ((List.range WORDS_TOT).map fun w =>
        if w < WORDS_LOW then data.getD w 0 else 0)) off WORDS_LOW = data ∧
    readWords (writeWords mem off ((List.range WORDS_TOT).map fun w =>
        if w < WORDS_LOW then data.getD w 0 else 0)) (off + HIGH_OFFSET) WORDS_HIGH
      = List.replicate WORDS_HIGH 0 := by
  have hWL : WORDS_LOW = 16 := rfl
  have hWH : WORDS_HIGH = 32 := rfl
  have hWT : WORDS_TOT = 48 := rfl
  have hplen : ((List.range WORDS_TOT).map fun w =>
      if w < WORDS_LOW then data.getD w 0 else 0).length = WORDS_TOT := by
    simp
  constructor
  · unfold readWords
    rw [List.map_congr_left (g := fun i => data.getD i 0) ?_]
    · rw [← hlen]; exact range_map_getD data
    · intro i hi
      have hi16 : i < WORDS_LOW := List.mem_range.mp hi
      rw [writeWords_get _ mem off i (by omega)]
      rw [getD_range_map]
      rw [if_pos (by omega : i < WORDS_TOT), if_pos hi16]
      exact getD_mem_lt data i (by omega) hd
  · unfold readWords
    rw [List.eq_replicate_iff]
    refine ⟨by simp, ?_⟩
    intro b hb
    obtain ⟨i, hi, hbi⟩ := List.mem_map.mp hb
    have hi32 : i < WORDS_HIGH := List.mem_range.mp hi
    have haddr : off + HIGH_OFFSET + ADDR_STEP * i = off + ADDR_STEP * (WORDS_LOW + i) := by
      have h1 : HIGH_OFFSET = 64 := rfl
      have h2 : ADDR_STEP = 4 := rfl
      rw [h1, h2, hWL]; omega
    rw [haddr] at hbi
    rw [writeWords_get _ mem off (WORDS_LOW + i) (by omega)] at hbi
    rw [getD_range_map] at hbi
    rw [if_pos (by omega : WORDS_LOW + i < WORDS_TOT),
        if_neg (by omega : ¬ WORDS_LOW + i < WORDS_LOW)] at hbi
    simpa using hbi.symm

/-- Core of the high-width round trip. -/
theorem roundtrip_high (mem : Nat → Nat) (off : Nat) (data : List Nat)
    (hlen : data.length = WORDS_HIGH) (hd : ∀ x ∈ data, x < 2 ^ 32) :
    readWords (writeWords mem off ((List.range WORDS_TOT).map fun w =>
        if w < WORDS_LOW then 0 else data.getD (w - WORDS_LOW) 0)) (off + HIGH_OFFSET)
        WORDS_HIGH = data ∧
    readWords (writeWords mem off ((List.range WORDS_TOT).map fun w =>
        if w < WORDS_LOW then 0 else data.getD (w - WORDS_LOW) 0)) off WORDS_LOW
      = List.replicate WORDS_LOW 0 := by
  have hWL : WORDS_LOW = 16 := rfl
  have hWH : WORDS_HIGH = 32 := rfl
  have hWT : WORDS_TOT = 48 := rfl
  have hplen : ((List.range WORDS_TOT).map fun w =>
      if w < WORDS_LOW then 0 else data.getD (w - WORDS_LOW) 0).length = WORDS_TOT := by
    simp
  constructor
  · unfold readWords
    rw [List.map_congr_left (g := fun i => data.getD i 0) ?_]
    · rw [← hlen]; exact range_map_getD data
    · intro i hi
      have hi32 : i < WORDS_HIGH := List.mem_range.mp hi
      have haddr : off + HIGH_OFFSET + ADDR_STEP * i = off + ADDR_STEP * (WORDS_LOW + i) := by
        have h1 : HIGH_OFFSET = 64 := rfl
        have h2 : ADDR_STEP = 4 := rfl
        rw [h1, h2, hWL]; omega
      rw [haddr]
      rw [writeWords_get _ mem off (WORDS_LOW + i) (by omega)]
      rw [getD_range_map]
      rw [if_pos (by omega : WORDS_LOW + i < WORDS_TOT),
          if_neg (by omega : ¬ WORDS_LOW + i < WORDS_LOW)]
      rw [show WORDS_LOW + i - WORDS_LOW = i by omega]
      exact getD_mem_lt data i (by omega) hd
  · unfold readWords
    rw [List.eq_replicate_iff]
    refine ⟨by simp, ?_⟩
    intro b hb
    obtain ⟨i, hi, hbi⟩ := List.mem_map.mp hb
    have hi16 : i < WORDS_LOW := List.mem_range.mp hi
    rw [writeWords_get _ mem off i (by omega)] at hbi
    rw [getD_range_map] at hbi
    rw [if_pos (by omega : i < WORDS_TOT), if_pos hi16] at hbi
    simpa using hbi.symm

/-- Core of the full-width round trip. -/
theorem roundtrip_tot (mem : Nat → Nat) (off : Nat) (data : List Nat)
    (hlen : data.length = WORDS_TOT) (hd : ∀ x ∈ data, x < 2 ^ 32) :
    readWords (writeWords mem off data) off WORDS_TOT = data := by
  unfold readWords
  rw [List.map_congr_left (g := fun i => data.getD i 0) ?_]
  · rw [← hlen]; exact range_map_getD data
  · intro i hi
    have hic : i < WORDS_TOT := List.mem_range.mp hi
    rw [writeWords_get data mem off i (by omega)]
    exact getD_mem_lt data i (by omega) hd

/-- C2: for every word array of the matching length, every working
operand slot and every supported width, GetOperand after SetOperand
returns the data unchanged; for the 512-bit (low) and 1024-bit (high)
policies the words of the slot not occupied by the data read back as
all-zero words. -/
theorem setOperand_getOperand_roundtrip (s : MME1536) (data : List Nat)
    (slot width : Nat)
    (hslot : slot = OPERAND_0 ∨ slot = OPERAND_1 ∨ slot = OPERAND_2 ∨ slot = OPERAND_3)
    (hwidth : width = BITS_LOW ∨ width = BITS_HIGH ∨ width = BITS_TOT)
    (hlen : data.length = width / 32)
    (hdata : ∀ x ∈ data, x < 2 ^ 32) :
    (MME1536_GetOperand slot width (MME1536_SetOperand data slot width s).2).1
        = some data ∧
    (width = BITS_LOW →
      readWords (MME1536_SetOperand data slot width s).2.mem
          ((getOperandOffset slot).getD 0 + HIGH_OFFSET) WORDS_HIGH
        = List.replicate WORDS_HIGH 0) ∧
    (width = BITS_HIGH →
      readWords (MME1536_SetOperand data slot width s).2.mem
          ((getOperandOffset slot).getD 0) WORDS_LOW
        = List.replicate WORDS_LOW 0) := by
  rcases hslot with rfl | rfl | rfl | rfl <;> rcases hwidth with rfl | rfl | rfl
  · exact ⟨congrArg some (roundtrip_low s.mem OP0_OFFSET data hlen hdata).1,
           fun _ => (roundtrip_low s.mem OP0_OFFSET data hlen hdata).2,
           fun h => absurd h (by decide)⟩
  · exact ⟨congrArg some (roundtrip_high s.mem OP0_OFFSET data hlen hdata).1,
           fun h => absurd h (by decide),
           fun _ => (roundtrip_high s.mem OP0_OFFSET data hlen hdata).2⟩
  · exact ⟨congrArg some (roundtrip_tot s.mem OP0_OFFSET data hlen hdata),
           fun h => absurd h (by decide),
           fun h => absurd h (by decide)⟩
  · exact ⟨congrArg some (roundtrip_low s.mem OP1_OFFSET data hlen hdata).1,
           fun _ => (roundtrip_low s.mem OP1_OFFSET data hlen hdata).2,
           fun h => absurd h (by decide)⟩
  · exact ⟨congrArg some (roundtrip_high s.mem OP1_OFFSET data hlen hdata).1,
           fun h => absurd h (by decide),
           fun _ => (roundtrip_high s.mem OP1_OFFSET data hlen hdata).2⟩
  · exact ⟨congrArg some (roundtrip_tot s.mem OP1_OFFSET data hlen hdata),
           fun h => absurd h (by decide),
           fun h => absurd h (by decide)⟩
  · exact ⟨congrArg some (roundtrip_low s.mem OP2_OFFSET data hlen hdata).1,
           fun _ => (roundtrip_low s.mem OP2_OFFSET data hlen hdata).2,
           fun h => absurd h (by decide)⟩
  · exact ⟨congrArg some (roundtrip_high s.mem OP2_OFFSET data hlen hdata).1,
           fun h => absurd h (by decide),
           fun _ => (roundtrip_high s.mem OP2_OFFSET data hlen hdata).2⟩
  · exact ⟨congrArg some (roundtrip_tot s.mem OP2_OFFSET data hlen hdata),
           fun h => absurd h (by decide),
           fun h => absurd h (by decide)⟩
  · exact ⟨congrArg some (roundtrip_low s.mem OP3_OFFSET data hlen hdata).1,
           fun _ => (roundtrip_low s.mem OP3_OFFSET data hlen hdata).2,
           fun h => absurd h (by decide)⟩
  · exact ⟨congrArg some (roundtrip_high s.mem OP3_OFFSET data hlen hdata).1,
           fun h => absurd h (by decide),
           fun _ => (roundtrip_high s.mem OP3_OFFSET data hlen hdata).2⟩
  · exact ⟨congrArg some (roundtrip_tot s.mem OP3_OFFSET data hlen hdata),
           fun h => absurd h (by decide),
           fun h => absurd h (by decide)⟩

/-- Concrete 16-word operand used by the C2 witness. -/
def data16 : List Nat := List.replicate WORDS_LOW 7

/-- Witness for C2 at slot OPERAND_1, the 512-bit policy, on the zeroed
session. -/
theorem setOperand_getOperand_roundtrip_witness :
    (OPERAND_1 = OPERAND_0 ∨ OPERAND_1 = OPERAND_1 ∨ OPERAND_1 = OPERAND_2 ∨
        OPERAND_1 = OPERAND_3) ∧
    (BITS_LOW = BITS_LOW ∨ BITS_LOW = BITS_HIGH ∨ BITS_LOW = BITS_TOT) ∧
    data16.length = BITS_LOW / 32 ∧
    (∀ x ∈ data16, x < 2 ^ 32) ∧
    ((MME1536_GetOperand OPERAND_1 BITS_LOW
          (MME1536_SetOperand data16 OPERAND_1 BITS_LOW s0).2).1 = some data16 ∧
      (BITS_LOW = BITS_LOW →
        readWords (MME1536_SetOperand data16 OPERAND_1 BITS_LOW s0).2.mem
            ((getOperandOffset OPERAND_1).getD 0 + HIGH_OFFSET) WORDS_HIGH
          = List.replicate WORDS_HIGH 0) ∧
      (BITS_LOW = BITS_HIGH →
        readWords (MME1536_SetOperand data16 OPERAND_1 BITS_LOW s0).2.mem
            ((getOperandOffset OPERAND_1).getD 0) WORDS_LOW
          = List.replicate WORDS_LOW 0)) :=
  ⟨Or.inr (Or.inl rfl), Or.inl rfl, rfl, by decide,
   setOperand_getOperand_roundtrip s0 data16 OPERAND_1 BITS_LOW
     (Or.inr (Or.inl rfl)) (Or.inl rfl) rfl (by decide)⟩

/-! R² precomputation lemmas. -/

theorem natDigits_eq_nil : natDigits 0 = [] := by
  rw [natDigits]
  rfl

theorem natDigits_eq_cons (r : Nat) (h : r ≠ 0) :
    natDigits r = (r % 2 ^ 32) :: natDigits (r / 2 ^ 32) := by
  rw [natDigits]
  simp [h]

/-- Exporting the significant base-2^32 digits over a zero padding of
width `k` yields exactly the full `k`-word little-endian decomposition. -/
theorem natDigits_pad : ∀ (k r : Nat), r < 2 ^ (32 * k) →
    natDigits r ++ List.replicate (k - (natDigits r).length) 0
      = (List.range k).map fun i => r / 2 ^ (32 * i) % 2 ^ 32 := by
  intro k
  induction k with
  | zero =>
    intro r hr
    have h0 : r = 0 := by simpa using hr
    subst h0
    rw [natDigits_eq_nil]
    rfl
  | succ k ih =>
    intro r hr
    by_cases h0 : r = 0
    · subst h0
      rw [natDigits_eq_nil]
      simp only [List.nil_append, List.length_nil, Nat.sub_zero]
      symm
      rw [List.eq_replicate_iff]
      refine ⟨by simp, ?_⟩
      intro b hb
      obtain ⟨i, _, hbi⟩ := List.mem_map.mp hb
      simpa using hbi.symm
    · rw [natDigits_eq_cons r h0]
      have hlt : r / 2 ^ 32 < 2 ^ (32 * k) := by
        rw [Nat.div_lt_iff_lt_mul (by norm_num : 0 < 2 ^ 32)]
        calc r < 2 ^ (32 * (k + 1)) := hr
        _ = 2 ^ (32 * k) * 2 ^ 32 := by rw [← pow_add]; ring_nf
      have ihr := ih (r / 2 ^ 32) hlt
      rw [List.range_succ_eq_map, List.map_cons, List.map_map, List.cons_append,
        List.length_cons, Nat.succ_sub_succ]
      congr 1
      · simp
      · have hf : ((fun i => r / 2 ^ (32 * i) % 2 ^ 32) ∘ Nat.succ)
            = fun i => r / 2 ^ 32 / 2 ^ (32 * i) % 2 ^ 32 := by
          funext i
          show r / 2 ^ (32 * (i + 1)) % 2 ^ 32 = r / 2 ^ 32 / 2 ^ (32 * i) % 2 ^ 32
          rw [Nat.div_div_eq_div_mul, Nat.mul_succ, pow_add,
            Nat.mul_comm (2 ^ (32 * i)) (2 ^ 32)]
        rw [hf]
        exact ihr

theorem wordsVal_lt (l : List Nat) (h : ∀ x ∈ l, x < 2 ^ 32) :
    wordsVal l < 2 ^ (32 * l.length) := by
  induction l with
  | nil => simp [wordsVal]
  | cons a t ih =>
    have ha : a < 2 ^ 32 := h a (by simp)
    have ht := ih fun x hx => h x (by simp [hx])
    show a + 2 ^ 32 * wordsVal t < 2 ^ (32 * (t.length + 1))
    have hsplit : 2 ^ (32 * (t.length + 1)) = 2 ^ 32 * 2 ^ (32 * t.length) := by
      rw [← pow_add]
      ring_nf
    rw [hsplit]
    calc a + 2 ^ 32 * wordsVal t < 2 ^ 32 + 2 ^ 32 * wordsVal t := by omega
    _ = 2 ^ 32 * (wordsVal t + 1) := by ring
    _ ≤ 2 ^ 32 * 2 ^ (32 * t.length) := Nat.mul_le_mul_left _ (by omega)

theorem setOperand_R2 (d : List Nat) (o l : Nat) (st : MME1536) :
    (MME1536_SetOperand d o l st).2.R2 = st.R2 := by
  unfold MME1536_SetOperand
  rcases ho : operandOffset o with _ | off
  · rfl
  · rcases hp : placeOperand d l with _ | pd
    · rfl
    · rfl

/-- C1: after MME1536_UpdateModulus with a supported width `n` and an
odd modulus `m` of that width, the session's cached R² buffer holds the
48-word little-endian decomposition of `2^(2n) mod m`, and the modulus
words have been written into the hardware modulus slot (at the
high-half address bias for the 1024-bit width). -/
theorem updateModulus_R2_and_modulus_slot (s : MME1536) (m : List Nat) (n : Nat)
    (hn : n = BITS_LOW ∨ n = BITS_HIGH ∨ n = BITS_TOT)
    (hlen : m.length = n / 32)
    (hm : ∀ x ∈ m, x < 2 ^ 32)
    (hodd : Odd (wordsVal m)) :
    (MME1536_UpdateModulus m n s).R2
        = ((List.range WORDS_TOT).map fun i =>
            2 ^ (2 * n) % wordsVal m / 2 ^ (32 * i) % 2 ^ 32) ∧
    ∀ i, i < n / 32 →
      (MME1536_UpdateModulus m n s).mem
          (M_OFFSET + (if n = BITS_HIGH then HIGH_OFFSET else 0) + ADDR_STEP * i)
        = m.getD i 0 := by
  have hpos : 0 < wordsVal m := by
    have := Nat.odd_iff.mp hodd
    omega
  have htake : m.take (n / 32) = m := by
    rw [← hlen]
    exact List.take_length m
  constructor
  · have hR2eq : (MME1536_UpdateModulus m n s).R2
        = MME1536_ComputeR2 (List.replicate WORDS_TOT 0) m n := by
      unfold MME1536_UpdateModulus
      rw [setOperand_R2]
    rw [hR2eq]
    unfold MME1536_ComputeR2
    rw [htake]
    have hrlt : 2 ^ (2 * n) % wordsVal m < 2 ^ (32 * WORDS_TOT) := by
      have h1 : 2 ^ (2 * n) % wordsVal m < wordsVal m := Nat.mod_lt _ hpos
      have h2 : wordsVal m < 2 ^ (32 * m.length) := wordsVal_lt m hm
      have h3 : (2 : Nat) ^ (32 * m.length) ≤ 2 ^ (32 * WORDS_TOT) := by
        refine Nat.pow_le_pow_right (by norm_num) ?_
        rcases hn with rfl | rfl | rfl <;> rw [hlen] <;> decide
      omega
    show natDigits (2 ^ (2 * n) % wordsVal m) ++
        List.drop (natDigits (2 ^ (2 * n) % wordsVal m)).length (List.replicate WORDS_TOT 0)
      = _
    rw [List.drop_replicate]
    exact natDigits_pad WORDS_TOT _ hrlt
  · intro i hi
    have hWL : WORDS_LOW = 16 := rfl
    have hWH : WORDS_HIGH = 32 := rfl
    have hWT : WORDS_TOT = 48 := rfl
    rcases hn with rfl | rfl | rfl
    · have hi16 : i < WORDS_LOW := hi
      show writeWords s.mem M_OFFSET ((List.range WORDS_TOT).map fun w =>
          if w < WORDS_LOW then m.getD w 0 else 0)
          (M_OFFSET + (if BITS_LOW = BITS_HIGH then HIGH_OFFSET else 0) + ADDR_STEP * i)
        = m.getD i 0
      rw [show (if BITS_LOW = BITS_HIGH then HIGH_OFFSET else 0) = 0 from rfl,
        Nat.add_zero]
      rw [writeWords_get _ s.mem M_OFFSET i (by simp; omega)]
      rw [getD_range_map, if_pos (by omega : i < WORDS_TOT), if_pos hi16]
      exact getD_mem_lt m i (by rw [hlen]; exact hi) hm
    · have hi32 : i < WORDS_HIGH := hi
      show writeWords s.mem M_OFFSET ((List.range WORDS_TOT).map fun w =>
          if w < WORDS_LOW then 0 else m.getD (w - WORDS_LOW) 0)
          (M_OFFSET + (if BITS_HIGH = BITS_HIGH then HIGH_OFFSET else 0) + ADDR_STEP * i)
        = m.getD i 0
      rw [show (if BITS_HIGH = BITS_HIGH then HIGH_OFFSET else 0) = HIGH_OFFSET from rfl]
      rw [show M_OFFSET + HIGH_OFFSET + ADDR_STEP * i
          = M_OFFSET + ADDR_STEP * (WORDS_LOW + i) by
        rw [show HIGH_OFFSET = 64 from rfl, show ADDR_STEP = 4 from rfl, hWL]
        omega]
      rw [writeWords_get _ s.mem M_OFFSET (WORDS_LOW + i) (by simp; omega)]
      rw [getD_range_map, if_pos (by omega : WORDS_LOW + i < WORDS_TOT),
        if_neg (by omega : ¬ WORDS_LOW + i < WORDS_LOW),
        show WORDS_LOW + i - WORDS_LOW = i by omega]
      exact getD_mem_lt m i (by rw [hlen]; exact hi) hm
    · have hi48 : i < WORDS_TOT := hi
      show writeWords s.mem M_OFFSET m
          (M_OFFSET + (if BITS_TOT = BITS_HIGH then HIGH_OFFSET else 0) + ADDR_STEP * i)
        = m.getD i 0
      rw [show (if BITS_TOT = BITS_HIGH then HIGH_OFFSET else 0) = 0 from rfl,
        Nat.add_zero]
      rw [writeWords_get m s.mem M_OFFSET i (by rw [hlen]; exact hi)]
      exact getD_mem_lt m i (by rw [hlen]; exact hi) hm

/-- Concrete odd 512-bit modulus (value 2^32 + 3) for the C1 witness. -/
def mWit : List Nat := 3 :: 1 :: List.replicate 14 0

/-- Witness for C1 at width 512 and modulus value 2^32 + 3. -/
theorem updateModulus_R2_and_modulus_slot_witness :
    (BITS_LOW = BITS_LOW ∨ BITS_LOW = BITS_HIGH ∨ BITS_LOW = BITS_TOT) ∧
    mWit.length = BITS_LOW / 32 ∧
    (∀ x ∈ mWit, x < 2 ^ 32) ∧
    Odd (wordsVal mWit) ∧
    ((MME1536_UpdateModulus mWit BITS_LOW s0).R2
        = ((List.range WORDS_TOT).map fun i =>
            2 ^ (2 * BITS_LOW) % wordsVal mWit / 2 ^ (32 * i) % 2 ^ 32) ∧
      ∀ i, i < BITS_LOW / 32 →
        (MME1536_UpdateModulus mWit BITS_LOW s0).mem
            (M_OFFSET + (if BITS_LOW = BITS_HIGH then HIGH_OFFSET else 0) + ADDR_STEP * i)
          = mWit.getD i 0) :=
  ⟨Or.inl rfl, rfl, by decide, ⟨2147483649, by decide⟩,
   updateModulus_R2_and_modulus_slot s0 mWit BITS_LOW (Or.inl rfl) rfl (by decide)
     ⟨2147483649, by decide⟩⟩

end MME
